import Mathlib

/-!
Verification development for the SmartPipeline library.

The pipeline coordinator, stage runner and error manager are modelled as a
sequential semantics over explicit item states; the filesystem source
adapter is embedded from `smartpipeline/helpers.py`.
-/

namespace SmartPipeline

/-- Modelled from the spec: an error record (`smartpipeline/error` is not in
the sources): kind is soft or critical, with a human message, an optional
captured exception, and the originating stage name. `hasException` is true
when an exception object was captured (always for critical errors). -/
structure ErrorRecord where
  stageName : String
  message : String
  hasException : Bool
deriving Repr, DecidableEq

/-- Modelled from the spec: the unit of work flowing through the pipeline
(`smartpipeline/stage.py` `DataItem` is not in the sources): an opaque id,
an open string payload mapping, per-stage timings (elapsed duration of the
last processing call, stored most-recent-first), and the ordered sequences
of soft and critical error records. -/
structure Item where
  id : String
  payload : List (String × String)
  timings : List (String × Nat)
  softErrors : List ErrorRecord
  criticalErrors : List ErrorRecord
deriving Repr, DecidableEq

namespace Item

/-- Modelled from the spec: `set_timing(stage, seconds)`; the new entry
shadows any previous one for the same stage. -/
def setTiming (stage : String) (d : Nat) (it : Item) : Item :=
  { it with timings := (stage, d) :: it.timings }

/-- Modelled from the spec: `get_timing(stage) → seconds|0`. -/
def getTiming (stage : String) (it : Item) : Nat :=
  (it.timings.lookup stage).getD 0

/-- Modelled from the spec: `add_error(stage, message)` appends a soft
error record. -/
def addError (r : ErrorRecord) (it : Item) : Item :=
  { it with softErrors := it.softErrors ++ [r] }

/-- Modelled from the spec: `add_critical_error(stage, exception)` appends
a critical error record. -/
def addCriticalError (r : ErrorRecord) (it : Item) : Item :=
  { it with criticalErrors := it.criticalErrors ++ [r] }

/-- Modelled from the spec: `has_errors` — the item carries at least one
soft error. -/
def hasErrors (it : Item) : Bool :=
  !it.softErrors.isEmpty

/-- Modelled from the spec: `has_critical_errors` — the item carries at
least one critical error. -/
def hasCriticalErrors (it : Item) : Bool :=
  !it.criticalErrors.isEmpty

/-- Modelled from the spec: read a payload value (empty when absent). -/
def getPayload (key : String) (it : Item) : String :=
  (it.payload.lookup key).getD ""

/-- Modelled from the spec: write a payload value. -/
def setPayload (key v : String) (it : Item) : Item :=
  { it with payload := (key, v) :: it.payload }

end Item

/-- Modelled from the spec: the error manager's two orthogonal policy
switches (`smartpipeline/error/handling.py` is not in the sources):
`raise_on_critical_error` default OFF, `skip_on_critical_error` default ON. -/
structure ErrorManager where
  raiseOnCriticalError : Bool := false
  skipOnCriticalError : Bool := true
deriving Repr, DecidableEq

namespace ErrorManager

/-- Modelled from the spec: chainable setter `raise_on_critical_error()`. -/
def raiseOnCritical (em : ErrorManager) : ErrorManager :=
  { em with raiseOnCriticalError := true }

/-- Modelled from the spec: chainable setter `no_skip_on_critical_error()`. -/
def noSkipOnCritical (em : ErrorManager) : ErrorManager :=
  { em with skipOnCriticalError := false }

end ErrorManager

/-- Modelled from the spec: a single-item stage descriptor: a unique name,
the wall-clock duration of one `process` call (abstracted as a value the
worker measures around the call), and the user `process` function, which
returns the same or a replacement item or raises (the `Except.error`
branch carries the exception message). -/
structure StageDef where
  name : String
  dur : Nat
  proc : Item → Except String Item

/-- Modelled from the spec: a worker executing one stage on one item.
If the item already carries a critical error and the skip policy is on,
the stage is bypassed and the item passes through untouched. Otherwise the
stage's `process` runs with the worker timing it: on success the timing is
recorded on the returned item; on an uncaught exception the timing is
recorded, a critical record is built, and — per policy — it is either
raised to the coordinator or attached to the item which continues. -/
def runStage (em : ErrorManager) (st : StageDef) (it : Item) :
    Except ErrorRecord Item :=
  if it.hasCriticalErrors && em.skipOnCriticalError then .ok it
  else
    match st.proc it with
    | .ok out => .ok (out.setTiming st.name st.dur)
    | .error msg =>
        let rec0 : ErrorRecord := ⟨st.name, msg, true⟩
        if em.raiseOnCriticalError then .error rec0
        else .ok ((it.setTiming st.name st.dur).addCriticalError rec0)

/-- Modelled from the spec: one item traversing the ordered stage list;
a raised critical error aborts the traversal. -/
def runPipeline (em : ErrorManager) (stages : List StageDef) (it : Item) :
    Except ErrorRecord Item :=
  match stages with
  | [] => .ok it
  | st :: rest =>
      match runStage em st it with
      | .ok out => runPipeline em rest out
      | .error r => .error r

/-- Modelled from the spec: the streaming run — the source's items are
fed in order and the delivered items are collected from the output queue;
the first raised critical error surfaces to the consumer instead of
further items. -/
def runAll (em : ErrorManager) (stages : List StageDef) :
    List Item → Except ErrorRecord (List Item)
  | [] => .ok []
  | it :: rest =>
      match runPipeline em stages it with
      | .ok out =>
          match runAll em stages rest with
          | .ok outs => .ok (out :: outs)
          | .error r => .error r
      | .error r => .error r

/-- Modelled from the spec: `pipeline.count`, the delivered-item counter of
a completed run (when the run raises, the consumer never reaches the end
of the iteration). -/
def count (em : ErrorManager) (stages : List StageDef) (items : List Item) :
    Nat :=
  match runAll em stages items with
  | .ok out => out.length
  | .error _ => 0

/-- A stage whose `process` never replaces the item's id (the stages used
throughout the repository's tests all satisfy this). -/
def IdPreserving (st : StageDef) : Prop :=
  ∀ it out, st.proc it = .ok out → out.id = it.id

/-- Modelled from the spec: the batch worker's buffer loop. Items are
dequeued one by one into an internal buffer; the buffer is flushed as a
batch when it reaches the declared size, and any partially filled buffer
is flushed when the termination sentinel (end of the input list) is
observed. -/
def batchLoop (size : Nat) (buf : List Item) : List Item → List (List Item)
  | [] => if buf.isEmpty then [] else [buf]
  | x :: xs =>
      let buf' := buf ++ [x]
      if size ≤ buf'.length then buf' :: batchLoop size [] xs
      else batchLoop size buf' xs

/-- Modelled from the spec: the batches a batch stage of the declared size
is invoked on, over a finite input stream followed by the sentinel. -/
def batchesOf (size : Nat) (xs : List Item) : List (List Item) :=
  batchLoop size [] xs

/-- Modelled from the spec: a batch stage run — each buffered batch is
handed to `process_batch` and the outputs are emitted in order. -/
def runBatchStage (size : Nat) (procBatch : List Item → List Item)
    (xs : List Item) : List Item :=
  ((batchesOf size xs).map procBatch).flatten

/-- Modelled from the spec: the item a source such as the tests'
`FakeSource` emits at position `n` (fresh: no timings and no errors). -/
def mkItem (n : Nat) : Item :=
  { id := toString n
    payload := [("text", "text " ++ toString n), ("count", toString n)]
    timings := []
    softErrors := []
    criticalErrors := [] }

/-- Modelled from the spec: the sequence of `n` items a finite source
emits before returning its sentinel. -/
def srcItems (n : Nat) : List Item :=
  (List.range n).map mkItem

/-- Modelled from the spec: the tests' `TextReverser` stage — reverses the
`text` payload value and returns the same item. -/
def textReverser (name : String) : StageDef :=
  { name := name
    dur := 1
    proc := fun it =>
      .ok (it.setPayload "text" ⟨(it.getPayload "text").data.reverse⟩) }

/-- Modelled from the spec: the tests' `ErrorStage` — signals a soft error
with message `test pipeline error` on every item and returns it. -/
def errorStage : StageDef :=
  { name := "error"
    dur := 1
    proc := fun it => .ok (it.addError ⟨"error", "test pipeline error", false⟩) }

/-- Modelled from the spec: the tests' `ExceptionStage` — raises an uncaught
`test exception` on every item. -/
def exceptionStage (name : String) : StageDef :=
  { name := name
    dur := 1
    proc := fun _ => .error "test exception" }

end SmartPipeline

namespace Helpers

/-- Embeds `os.path.join(dir_path, fname)` as used by
`LocalFilesSource._iter_files`: an absolute second component wins, a
trailing separator on the first is not doubled, an empty first component
yields the second. -/
def pathJoin (d f : String) : String :=
  if f.startsWith "/" then f
  else if d = "" then f
  else if d.endsWith "/" then d ++ f
  else d ++ "/" ++ f

/-- Embeds `LocalFilesSource._iter_files`: the files of the configured
directory (its listing given explicitly) whose name ends with the
configured postfix and does not start with a dot, joined to the directory
path, in listing order. -/
def iterFiles (dirPath postfixStr : String) (listing : List String) :
    List String :=
  (listing.filter fun f => f.endsWith postfixStr && !f.startsWith ".").map
    (pathJoin dirPath)

/-- Embeds `FilePathItem`: a data item wrapping a file path. -/
structure FilePathItem where
  path : String
deriving Repr, DecidableEq

/-- Embeds `LocalFilesSource.pop` acting on the iterator's remaining
files: `next(self._iterator, None)` consumes one path; a truthy (nonempty)
path is wrapped in a `FilePathItem`, otherwise the call falls through and
returns `None`. -/
def popSource : List String → Option FilePathItem × List String
  | [] => (none, [])
  | p :: rest => (if p = "" then none else some ⟨p⟩, rest)

/-- The result of the `(n+1)`-th call to `pop`: each call advances the
iterator by exactly one file, so after `n` calls the iterator holds the
filtered listing with its first `n` paths dropped. -/
def popAt (dirPath postfixStr : String) (listing : List String) (n : Nat) :
    Option FilePathItem :=
  (popSource ((iterFiles dirPath postfixStr listing).drop n)).1

end Helpers

namespace SmartPipeline

theorem runStage_eq_skip (em : ErrorManager) (st : StageDef) (it : Item)
    (h : (it.hasCriticalErrors && em.skipOnCriticalError) = true) :
    runStage em st it = .ok it := by
  simp [runStage, h]

theorem runStage_eq_ok (em : ErrorManager) (st : StageDef) (it out : Item)
    (hc : (it.hasCriticalErrors && em.skipOnCriticalError) = false)
    (hp : st.proc it = .ok out) :
    runStage em st it = .ok (out.setTiming st.name st.dur) := by
  simp [runStage, hc, hp]

theorem runStage_eq_raise (em : ErrorManager) (st : StageDef) (it : Item)
    (msg : String)
    (hc : (it.hasCriticalErrors && em.skipOnCriticalError) = false)
    (hr : em.raiseOnCriticalError = true)
    (hp : st.proc it = .error msg) :
    runStage em st it = .error ⟨st.name, msg, true⟩ := by
  simp [runStage, hc, hp, hr]

theorem runStage_eq_attach (em : ErrorManager) (st : StageDef) (it : Item)
    (msg : String)
    (hc : (it.hasCriticalErrors && em.skipOnCriticalError) = false)
    (hr : em.raiseOnCriticalError = false)
    (hp : st.proc it = .error msg) :
    runStage em st it =
      .ok ((it.setTiming st.name st.dur).addCriticalError
        ⟨st.name, msg, true⟩) := by
  simp [runStage, hc, hp, hr]

theorem runStage_ok_of_no_raise (em : ErrorManager) (st : StageDef) (it : Item)
    (h : em.raiseOnCriticalError = false) :
    ∃ out, runStage em st it = .ok out := by
  cases hc : (it.hasCriticalErrors && em.skipOnCriticalError) with
  | true => exact ⟨it, runStage_eq_skip em st it hc⟩
  | false =>
    cases hp : st.proc it with
    | ok out => exact ⟨_, runStage_eq_ok em st it out hc hp⟩
    | error msg => exact ⟨_, runStage_eq_attach em st it msg hc h hp⟩

theorem runPipeline_ok_of_no_raise (em : ErrorManager) (stages : List StageDef)
    (h : em.raiseOnCriticalError = false) :
    ∀ it, ∃ out, runPipeline em stages it = .ok out := by
  induction stages with
  | nil => exact fun it => ⟨it, rfl⟩
  | cons st rest ih =>
    intro it
    obtain ⟨mid, hmid⟩ := runStage_ok_of_no_raise em st it h
    obtain ⟨out, hout⟩ := ih mid
    exact ⟨out, by simp [runPipeline, hmid, hout]⟩

theorem runAll_ok_of_no_raise (em : ErrorManager) (stages : List StageDef)
    (h : em.raiseOnCriticalError = false) :
    ∀ items, ∃ out, runAll em stages items = .ok out := by
  intro items
  induction items with
  | nil => exact ⟨[], rfl⟩
  | cons it rest ih =>
    obtain ⟨mid, hmid⟩ := runPipeline_ok_of_no_raise em stages h it
    obtain ⟨outs, houts⟩ := ih
    exact ⟨mid :: outs, by simp [runAll, hmid, houts]⟩

theorem runAll_length (em : ErrorManager) (stages : List StageDef) :
    ∀ items out, runAll em stages items = .ok out →
      out.length = items.length := by
  intro items
  induction items with
  | nil =>
    intro out h
    simp only [runAll] at h
    cases h
    rfl
  | cons it rest ih =>
    intro out h
    simp only [runAll] at h
    cases hp : runPipeline em stages it with
    | error r => rw [hp] at h; cases h
    | ok mid =>
      rw [hp] at h
      cases hr : runAll em stages rest with
      | error r => rw [hr] at h; cases h
      | ok outs =>
        rw [hr] at h
        cases h
        simp [ih outs hr]

theorem runAll_get (em : ErrorManager) (stages : List StageDef) :
    ∀ items out, runAll em stages items = .ok out →
      ∀ k (hk : k < items.length) (hk' : k < out.length),
        runPipeline em stages (items.get ⟨k, hk⟩) = .ok (out.get ⟨k, hk'⟩) := by
  intro items
  induction items with
  | nil => intro out h k hk; exact absurd hk (Nat.not_lt_zero k)
  | cons it rest ih =>
    intro out h k hk hk'
    simp only [runAll] at h
    cases hp : runPipeline em stages it with
    | error r => rw [hp] at h; cases h
    | ok mid =>
      rw [hp] at h
      cases hr : runAll em stages rest with
      | error r => rw [hr] at h; cases h
      | ok outs =>
        rw [hr] at h
        cases h
        cases k with
        | zero => simpa using hp
        | succ k =>
          exact ih outs hr k (Nat.lt_of_succ_lt_succ hk)
            (Nat.lt_of_succ_lt_succ hk')

theorem runAll_map (em : ErrorManager) (stages : List StageDef)
    (f : Item → Item) :
    ∀ xs, (∀ x ∈ xs, runPipeline em stages x = .ok (f x)) →
      runAll em stages xs = .ok (xs.map f) := by
  intro xs
  induction xs with
  | nil => intro _; rfl
  | cons x rest ih =>
    intro h
    have hx := h x (List.mem_cons_self x rest)
    have hrest := ih fun y hy => h y (List.mem_cons_of_mem x hy)
    simp [runAll, hx, hrest]

theorem runStage_id (em : ErrorManager) (st : StageDef) (hid : IdPreserving st)
    (it out : Item) (h : runStage em st it = .ok out) : out.id = it.id := by
  cases hc : (it.hasCriticalErrors && em.skipOnCriticalError) with
  | true =>
    rw [runStage_eq_skip em st it hc] at h
    cases h
    rfl
  | false =>
    cases hp : st.proc it with
    | ok mid =>
      rw [runStage_eq_ok em st it mid hc hp] at h
      cases h
      exact hid it mid hp
    | error msg =>
      cases hr : em.raiseOnCriticalError with
      | true => rw [runStage_eq_raise em st it msg hc hr hp] at h; cases h
      | false =>
        rw [runStage_eq_attach em st it msg hc hr hp] at h
        cases h
        rfl

theorem runPipeline_id (em : ErrorManager) (stages : List StageDef)
    (hid : ∀ st ∈ stages, IdPreserving st) :
    ∀ it out, runPipeline em stages it = .ok out → out.id = it.id := by
  induction stages with
  | nil =>
    intro it out h
    cases h
    rfl
  | cons st rest ih =>
    intro it out h
    simp only [runPipeline] at h
    cases hs : runStage em st it with
    | error r => rw [hs] at h; cases h
    | ok mid =>
      rw [hs] at h
      have h1 := runStage_id em st (hid st (List.mem_cons_self st rest)) it mid hs
      have h2 := ih (fun s hmem => hid s (List.mem_cons_of_mem st hmem)) mid out h
      exact h2.trans h1

theorem runAll_ids (em : ErrorManager) (stages : List StageDef)
    (hid : ∀ st ∈ stages, IdPreserving st) :
    ∀ items out, runAll em stages items = .ok out →
      out.map Item.id = items.map Item.id := by
  intro items
  induction items with
  | nil =>
    intro out h
    cases h
    rfl
  | cons it rest ih =>
    intro out h
    simp only [runAll] at h
    cases hp : runPipeline em stages it with
    | error r => rw [hp] at h; cases h
    | ok mid =>
      rw [hp] at h
      cases hr : runAll em stages rest with
      | error r => rw [hr] at h; cases h
      | ok outs =>
        rw [hr] at h
        cases h
        simp [runPipeline_id em stages hid it mid hp, ih outs hr]

theorem runPipeline_skipped (em : ErrorManager) (stages : List StageDef)
    (hs : em.skipOnCriticalError = true) :
    ∀ it, it.hasCriticalErrors = true → runPipeline em stages it = .ok it := by
  induction stages with
  | nil => intro it _; rfl
  | cons st rest ih =>
    intro it hc
    have h1 : runStage em st it = .ok it := by
      unfold runStage
      rw [hc, hs]
      rfl
    simp [runPipeline, h1, ih it hc]

theorem runPipeline_append (em : ErrorManager) (a b : List StageDef) :
    ∀ it, runPipeline em (a ++ b) it =
      match runPipeline em a it with
      | .ok mid => runPipeline em b mid
      | .error r => .error r := by
  induction a with
  | nil => intro it; rfl
  | cons st rest ih =>
    intro it
    simp only [List.cons_append, runPipeline]
    cases hs : runStage em st it with
    | ok mid => exact ih mid
    | error r => rfl

theorem runAll_append_error (em : ErrorManager) (stages : List StageDef) :
    ∀ (pre : List Item) (outs : List Item) (it : Item) (more : List Item)
      (r : ErrorRecord),
      runAll em stages pre = .ok outs →
      runPipeline em stages it = .error r →
      runAll em stages (pre ++ it :: more) = .error r := by
  intro pre
  induction pre with
  | nil =>
    intro outs it more r _ hfail
    simp [runAll, hfail]
  | cons p ps ih =>
    intro outs it more r hpre hfail
    simp only [runAll] at hpre
    simp only [List.cons_append, runAll]
    cases hp : runPipeline em stages p with
    | error e => rw [hp] at hpre; cases hpre
    | ok mid =>
      rw [hp] at hpre
      cases hr : runAll em stages ps with
      | error e => rw [hr] at hpre; cases hpre
      | ok os => simp [ih os it more r hr hfail]

theorem getTiming_setTiming (it : Item) (s : String) (d : Nat) :
    (it.setTiming s d).getTiming s = d := by
  simp [Item.getTiming, Item.setTiming, List.lookup]

theorem lookup_setTiming_ne (it : Item) (s s' : String) (d : Nat)
    (h : s' ≠ s) :
    (it.setTiming s d).timings.lookup s' = it.timings.lookup s' := by
  have hb : (s' == s) = false := beq_eq_false_iff_ne.mpr h
  simp [Item.setTiming, List.lookup, hb]

theorem textReverser_idPres (name : String) :
    IdPreserving (textReverser name) := by
  intro it out h
  cases h
  rfl

theorem errorStage_idPres : IdPreserving errorStage := by
  intro it out h
  cases h
  rfl

theorem batchLoop_length_le (size : Nat) (hS : 1 ≤ size) :
    ∀ (xs buf : List Item), buf.length < size →
      ∀ b ∈ batchLoop size buf xs, b.length ≤ size := by
  intro xs
  induction xs with
  | nil =>
    intro buf hb b hmem
    simp only [batchLoop] at hmem
    split at hmem
    · cases hmem
    · rw [List.mem_singleton] at hmem
      exact hmem ▸ Nat.le_of_lt hb
  | cons x xs ih =>
    intro buf hb b hmem
    simp only [batchLoop] at hmem
    split at hmem
    · rcases List.mem_cons.mp hmem with rfl | hmem'
      · simpa using hb
      · exact ih [] (by simpa using hS) b hmem'
    · next hlt =>
      exact ih (buf ++ [x]) (Nat.lt_of_not_le hlt) b hmem

theorem batchLoop_flatten (size : Nat) :
    ∀ (xs buf : List Item), (batchLoop size buf xs).flatten = buf ++ xs := by
  intro xs
  induction xs with
  | nil =>
    intro buf
    simp only [batchLoop]
    split
    · next hbuf => simp [List.isEmpty_iff.mp hbuf]
    · simp
  | cons x xs ih =>
    intro buf
    simp only [batchLoop]
    split
    · simp [ih]
    · simp [ih]

end SmartPipeline

namespace Helpers

theorem pathJoin_ne_empty (d f : String) (hf : f ≠ "") : pathJoin d f ≠ "" := by
  have happ : ∀ a : String, a ++ f ≠ "" := by
    intro a hc
    apply hf
    have hdata : (a ++ f).data = a.data ++ f.data := String.data_append a f
    rw [hc] at hdata
    exact String.ext (by simp [(List.append_eq_nil.mp hdata.symm).2])
  unfold pathJoin
  split
  · exact hf
  · split
    · exact hf
    · split
      · exact happ d
      · exact happ (d ++ "/")

theorem iterFiles_ne_empty (dirPath postfixStr : String)
    (listing : List String) (hne : ∀ f ∈ listing, f ≠ "") :
    ∀ p ∈ iterFiles dirPath postfixStr listing, p ≠ "" := by
  intro p hp
  obtain ⟨f, hfmem, rfl⟩ := List.mem_map.mp hp
  exact pathJoin_ne_empty dirPath f (hne f (List.mem_filter.mp hfmem).1)

end Helpers

namespace SmartPipeline

/-- C1: after a completed run over a source that emitted the given items,
`pipeline.count` equals their number (the critical-error skip policy of
this version discards no item, so delivered plus discarded is just
delivered), and the multiset of delivered items' ids equals the multiset
of ids the source emitted, provided the stages do not replace ids. -/
theorem claim_C1_count_and_ids (em : ErrorManager) (stages : List StageDef)
    (items out : List Item)
    (hrun : runAll em stages items = .ok out)
    (hid : ∀ st ∈ stages, IdPreserving st) :
    count em stages items = items.length ∧
    (out.map Item.id).Perm (items.map Item.id) := by
  constructor
  · simp only [count, hrun]
    exact runAll_length em stages items out hrun
  · rw [runAll_ids em stages hid items out hrun]

theorem claim_C1_witness :
    ∃ out, runAll ⟨false, true⟩ [textReverser "reverser"] (srcItems 3) =
        .ok out ∧
      count ⟨false, true⟩ [textReverser "reverser"] (srcItems 3) =
        (srcItems 3).length ∧
      (out.map Item.id).Perm ((srcItems 3).map Item.id) := by
  obtain ⟨out, hout⟩ :=
    runAll_ok_of_no_raise ⟨false, true⟩ [textReverser "reverser"] rfl
      (srcItems 3)
  have hid : ∀ st ∈ [textReverser "reverser"], IdPreserving st := by
    intro st hst
    rw [List.mem_singleton] at hst
    exact hst ▸ textReverser_idPres "reverser"
  exact ⟨out, hout,
    claim_C1_count_and_ids ⟨false, true⟩ [textReverser "reverser"]
      (srcItems 3) out hout hid⟩

/-- C2: with raise off and skip on (the default policy), a stage raising an
uncaught exception on an item attaches the critical record to that item,
every downstream stage is bypassed (the item reaches the output exactly as
it left the failing stage, its timings for downstream stage names
untouched), and the item is still delivered with its errors. -/
theorem claim_C2_attach_skip_deliver (em : ErrorManager) (st : StageDef)
    (rest : List StageDef) (it : Item) (msg : String)
    (hr : em.raiseOnCriticalError = false)
    (hs : em.skipOnCriticalError = true)
    (hnc : it.hasCriticalErrors = false)
    (hfail : st.proc it = .error msg) :
    runPipeline em (st :: rest) it =
      .ok ((it.setTiming st.name st.dur).addCriticalError
        ⟨st.name, msg, true⟩) ∧
    ((it.setTiming st.name st.dur).addCriticalError
        ⟨st.name, msg, true⟩).criticalErrors =
      it.criticalErrors ++ [⟨st.name, msg, true⟩] ∧
    ∀ s ∈ rest, s.name ≠ st.name →
      ((it.setTiming st.name st.dur).addCriticalError
        ⟨st.name, msg, true⟩).timings.lookup s.name =
        it.timings.lookup s.name := by
  have hc : (it.hasCriticalErrors && em.skipOnCriticalError) = false := by
    rw [hnc]
    rfl
  have hstage := runStage_eq_attach em st it msg hc hr hfail
  have hcrit : ((it.setTiming st.name st.dur).addCriticalError
      ⟨st.name, msg, true⟩).hasCriticalErrors = true := by
    simp [Item.hasCriticalErrors, Item.addCriticalError]
  refine ⟨?_, rfl, ?_⟩
  · simp [runPipeline, hstage, runPipeline_skipped em rest hs _ hcrit]
  · intro s _ hne
    exact lookup_setTiming_ne it st.name s.name st.dur hne

theorem claim_C2_witness :
    runPipeline ⟨false, true⟩
        (exceptionStage "error" :: [textReverser "reverser2"]) (mkItem 0) =
      .ok (((mkItem 0).setTiming (exceptionStage "error").name
          (exceptionStage "error").dur).addCriticalError
        ⟨(exceptionStage "error").name, "test exception", true⟩) ∧
    (((mkItem 0).setTiming (exceptionStage "error").name
        (exceptionStage "error").dur).addCriticalError
      ⟨(exceptionStage "error").name, "test exception",
        true⟩).criticalErrors =
      (mkItem 0).criticalErrors ++
        [⟨(exceptionStage "error").name, "test exception", true⟩] ∧
    ∀ s ∈ [textReverser "reverser2"],
      s.name ≠ (exceptionStage "error").name →
      (((mkItem 0).setTiming (exceptionStage "error").name
          (exceptionStage "error").dur).addCriticalError
        ⟨(exceptionStage "error").name, "test exception",
          true⟩).timings.lookup s.name =
        (mkItem 0).timings.lookup s.name :=
  claim_C2_attach_skip_deliver ⟨false, true⟩ (exceptionStage "error")
    [textReverser "reverser2"] (mkItem 0) "test exception" rfl rfl rfl rfl

/-- C3: with raise_on_critical_error enabled, an uncaught stage exception
terminates the run: iterating the run surfaces the first critical error to
the consumer as a raised fault instead of delivering further items. -/
theorem claim_C3_raise_terminates (em : ErrorManager)
    (spre srest : List StageDef) (st : StageDef)
    (pre more : List Item) (it mid : Item) (msg : String) (outs : List Item)
    (hr : em.raiseOnCriticalError = true)
    (hdeliv : runAll em (spre ++ st :: srest) pre = .ok outs)
    (hpre : runPipeline em spre it = .ok mid)
    (hnc : mid.hasCriticalErrors = false)
    (hfail : st.proc mid = .error msg) :
    runAll em (spre ++ st :: srest) (pre ++ it :: more) =
      .error ⟨st.name, msg, true⟩ := by
  have hc : (mid.hasCriticalErrors && em.skipOnCriticalError) = false := by
    rw [hnc]
    rfl
  have hstage := runStage_eq_raise em st mid msg hc hr hfail
  have hpipe : runPipeline em (spre ++ st :: srest) it =
      .error ⟨st.name, msg, true⟩ := by
    rw [runPipeline_append em spre (st :: srest) it, hpre]
    simp [runPipeline, hstage]
  exact runAll_append_error em (spre ++ st :: srest) pre outs it more _
    hdeliv hpipe

theorem claim_C3_witness :
    runAll ⟨true, true⟩
        ([] ++ exceptionStage "error" :: [textReverser "reverser2"])
        ([] ++ mkItem 0 :: [mkItem 1]) =
      .error ⟨(exceptionStage "error").name, "test exception", true⟩ :=
  claim_C3_raise_terminates ⟨true, true⟩ [] [textReverser "reverser2"]
    (exceptionStage "error") [] [mkItem 1] (mkItem 0) (mkItem 0)
    "test exception" [] rfl rfl rfl rfl rfl

/-- C4: every invocation of `process_batch` for a batch stage of declared
size receives at most that many items, the termination sentinel flushes any
partially filled buffer so the batches together are exactly the input
stream, and hence a length-preserving `process_batch` delivers every item
that entered the stage even when no batch ever fills. -/
theorem claim_C4_batching (size : Nat) (xs : List Item)
    (procBatch : List Item → List Item)
    (hS : 1 ≤ size)
    (hlen : ∀ b, (procBatch b).length = b.length) :
    (∀ b ∈ batchesOf size xs, b.length ≤ size) ∧
    (batchesOf size xs).flatten = xs ∧
    (runBatchStage size procBatch xs).length = xs.length := by
  have hflat : (batchesOf size xs).flatten = xs := by
    simpa [batchesOf] using batchLoop_flatten size xs []
  refine ⟨batchLoop_length_le size hS xs [] (by simpa using hS), hflat, ?_⟩
  have hmap : ∀ L : List (List Item),
      ((L.map procBatch).flatten).length = L.flatten.length := by
    intro L
    induction L with
    | nil => rfl
    | cons b L ih => simp [hlen b, ih]
  unfold runBatchStage
  rw [hmap (batchesOf size xs), hflat]

theorem claim_C4_witness :
    1 ≤ 4 ∧
    ((∀ b ∈ batchesOf 4 [mkItem 0, mkItem 1], b.length ≤ 4) ∧
     (batchesOf 4 [mkItem 0, mkItem 1]).flatten = [mkItem 0, mkItem 1] ∧
     (runBatchStage 4 List.reverse [mkItem 0, mkItem 1]).length =
       [mkItem 0, mkItem 1].length) :=
  ⟨by decide,
    claim_C4_batching 4 [mkItem 0, mkItem 1] List.reverse (by decide)
      (fun b => List.length_reverse b)⟩

/-- C5: for every item a stage actually processes (the skip policy not
bypassing it), whether the process call succeeds or fails, the item's
recorded timing for the stage equals the wall-clock duration measured
around that call and is strictly positive whenever that duration is. -/
theorem claim_C5_timing (em : ErrorManager) (st : StageDef) (it out : Item)
    (hrun : runStage em st it = .ok out)
    (hproc : (it.hasCriticalErrors && em.skipOnCriticalError) = false)
    (hdur : 0 < st.dur) :
    out.getTiming st.name = st.dur ∧ 0 < out.getTiming st.name := by
  cases hp : st.proc it with
  | ok mid =>
    rw [runStage_eq_ok em st it mid hproc hp] at hrun
    cases hrun
    rw [getTiming_setTiming]
    exact ⟨rfl, hdur⟩
  | error msg =>
    cases hraise : em.raiseOnCriticalError with
    | true =>
      rw [runStage_eq_raise em st it msg hproc hraise hp] at hrun
      cases hrun
    | false =>
      rw [runStage_eq_attach em st it msg hproc hraise hp] at hrun
      cases hrun
      have h : ((it.setTiming st.name st.dur).addCriticalError
          ⟨st.name, msg, true⟩).getTiming st.name = st.dur :=
        getTiming_setTiming it st.name st.dur
      exact ⟨h, by rw [h]; exact hdur⟩

theorem claim_C5_witness :
    runStage ⟨false, true⟩ (textReverser "reverser") (mkItem 2) =
      .ok (((mkItem 2).setPayload "text"
          ⟨((mkItem 2).getPayload "text").data.reverse⟩).setTiming
        "reverser" 1) ∧
    (((mkItem 2).setPayload "text"
        ⟨((mkItem 2).getPayload "text").data.reverse⟩).setTiming
      "reverser" 1).getTiming "reverser" = 1 ∧
    0 < (((mkItem 2).setPayload "text"
        ⟨((mkItem 2).getPayload "text").data.reverse⟩).setTiming
      "reverser" 1).getTiming "reverser" :=
  ⟨rfl,
    claim_C5_timing ⟨false, true⟩ (textReverser "reverser") (mkItem 2)
      (((mkItem 2).setPayload "text"
          ⟨((mkItem 2).getPayload "text").data.reverse⟩).setTiming
        "reverser" 1) rfl rfl (by decide)⟩

/-- C6: an item's id is unchanged from injection to delivery: whenever the
per-item pipeline traversal (the semantics shared by `process`,
`process_async`/`get_item` and `run`) delivers a result for an injected
item, and the user stages do not replace ids, the result carries the same
id as the injected item. -/
theorem claim_C6_id_preserved (em : ErrorManager) (stages : List StageDef)
    (it out : Item)
    (hid : ∀ st ∈ stages, IdPreserving st)
    (hrun : runPipeline em stages it = .ok out) :
    out.id = it.id :=
  runPipeline_id em stages hid it out hrun

theorem claim_C6_witness :
    (((mkItem 5).setPayload "text"
        ⟨((mkItem 5).getPayload "text").data.reverse⟩).setTiming
      "reverser0" 1).id = (mkItem 5).id :=
  claim_C6_id_preserved ⟨false, true⟩ [textReverser "reverser0"] (mkItem 5)
    (((mkItem 5).setPayload "text"
        ⟨((mkItem 5).getPayload "text").data.reverse⟩).setTiming
      "reverser0" 1)
    (by
      intro st hst
      rw [List.mem_singleton] at hst
      exact hst ▸ textReverser_idPres "reverser0")
    rfl

/-- C7: soft errors never interrupt processing: over a source of any
number of items, a pipeline whose `error` stage signals a soft error on
every item still processes and delivers every item, each delivered item
has `has_errors()` true with the signalled message attached, no critical
errors are recorded, and no exception is raised to the consumer. -/
theorem claim_C7_soft_errors (em : ErrorManager) (n : Nat) :
    ∃ out, runAll em [textReverser "reverser", errorStage] (srcItems n) =
        .ok out ∧
      out.length = n ∧
      ∀ it ∈ out, it.hasErrors = true ∧ it.hasCriticalErrors = false ∧
        (⟨"error", "test pipeline error", false⟩ : ErrorRecord) ∈
          it.softErrors := by
  refine ⟨(srcItems n).map fun x =>
      (((x.setPayload "text" ⟨(x.getPayload "text").data.reverse⟩).setTiming
          "reverser" 1).addError
        ⟨"error", "test pipeline error", false⟩).setTiming "error" 1,
    runAll_map em _ _ (srcItems n) ?_, ?_, ?_⟩
  · intro x hx
    obtain ⟨m, _, rfl⟩ := List.mem_map.mp hx
    rfl
  · simp [srcItems]
  · intro it hmem
    obtain ⟨x, hx, rfl⟩ := List.mem_map.mp hmem
    obtain ⟨m, _, rfl⟩ := List.mem_map.mp hx
    refine ⟨rfl, rfl, ?_⟩
    simp [Item.addError, Item.setTiming, Item.setPayload, mkItem]

/-- C8: with skip_on_critical_error disabled (and raise off), an item hit
by an uncaught stage exception continues downstream normally: every item
of the source is delivered carrying the critical error, with positive
recorded timings for the stage before, at, and after the failing stage. -/
theorem claim_C8_no_skip_continues (n : Nat) :
    ∃ out, runAll ⟨false, false⟩
        [textReverser "reverser1", exceptionStage "error",
          textReverser "reverser2"] (srcItems n) = .ok out ∧
      out.length = n ∧
      ∀ it ∈ out,
        0 < it.getTiming "reverser1" ∧ 0 < it.getTiming "error" ∧
        0 < it.getTiming "reverser2" ∧ it.hasCriticalErrors = true := by
  refine ⟨(srcItems n).map fun x =>
      let mid1 := (x.setPayload "text"
        ⟨(x.getPayload "text").data.reverse⟩).setTiming "reverser1" 1
      let mid2 := (mid1.setTiming "error" 1).addCriticalError
        ⟨"error", "test exception", true⟩
      (mid2.setPayload "text"
        ⟨(mid2.getPayload "text").data.reverse⟩).setTiming "reverser2" 1,
    runAll_map _ _ _ (srcItems n) ?_, ?_, ?_⟩
  · intro x hx
    obtain ⟨m, _, rfl⟩ := List.mem_map.mp hx
    rfl
  · simp [srcItems]
  · intro it hmem
    obtain ⟨x, hx, rfl⟩ := List.mem_map.mp hmem
    obtain ⟨m, _, rfl⟩ := List.mem_map.mp hx
    exact ⟨Nat.zero_lt_one, Nat.zero_lt_one, Nat.zero_lt_one, rfl⟩

/-- C9: FIFO is preserved for single-item stages at concurrency one: a
completed run delivers as many items as entered, and the k-th delivered
item is exactly the processed k-th input item, for every input sequence. -/
theorem claim_C9_fifo (em : ErrorManager) (stages : List StageDef)
    (items out : List Item)
    (hrun : runAll em stages items = .ok out) :
    out.length = items.length ∧
    ∀ k (hk : k < items.length) (hk' : k < out.length),
      runPipeline em stages (items.get ⟨k, hk⟩) = .ok (out.get ⟨k, hk'⟩) :=
  ⟨runAll_length em stages items out hrun,
    runAll_get em stages items out hrun⟩

theorem claim_C9_witness :
    [((mkItem 0).addError ⟨"error", "test pipeline error",
        false⟩).setTiming "error" 1,
      ((mkItem 1).addError ⟨"error", "test pipeline error",
        false⟩).setTiming "error" 1].length =
      [mkItem 0, mkItem 1].length ∧
    ∀ k (hk : k < [mkItem 0, mkItem 1].length)
      (hk' : k < [((mkItem 0).addError ⟨"error", "test pipeline error",
          false⟩).setTiming "error" 1,
        ((mkItem 1).addError ⟨"error", "test pipeline error",
          false⟩).setTiming "error" 1].length),
      runPipeline ⟨false, true⟩ [errorStage]
          ([mkItem 0, mkItem 1].get ⟨k, hk⟩) =
        .ok ([((mkItem 0).addError ⟨"error", "test pipeline error",
            false⟩).setTiming "error" 1,
          ((mkItem 1).addError ⟨"error", "test pipeline error",
            false⟩).setTiming "error" 1].get ⟨k, hk'⟩) :=
  claim_C9_fifo ⟨false, true⟩ [errorStage] [mkItem 0, mkItem 1]
    [((mkItem 0).addError ⟨"error", "test pipeline error",
        false⟩).setTiming "error" 1,
      ((mkItem 1).addError ⟨"error", "test pipeline error",
        false⟩).setTiming "error" 1] rfl

end SmartPipeline

namespace Helpers

/-- C10: `LocalFilesSource.pop` conforms to the Source contract: the n-th
call returns a `FilePathItem` for the n-th file of the configured
directory whose name ends with the configured postfix and does not start
with a dot, returns none once all such files have been returned and on
every call thereafter, and never returns a file failing the filter. -/
theorem claim_C10_pop (dirPath postfixStr : String) (listing : List String)
    (hne : ∀ f ∈ listing, f ≠ "") :
    (∀ n (h : n < (iterFiles dirPath postfixStr listing).length),
        popAt dirPath postfixStr listing n =
          some ⟨(iterFiles dirPath postfixStr listing).get ⟨n, h⟩⟩) ∧
    (∀ n, (iterFiles dirPath postfixStr listing).length ≤ n →
        popAt dirPath postfixStr listing n = none) ∧
    (∀ n it, popAt dirPath postfixStr listing n = some it →
        ∃ f, f ∈ listing ∧ f.endsWith postfixStr = true ∧
          f.startsWith "." = false ∧ it.path = pathJoin dirPath f) := by
  refine ⟨?_, ?_, ?_⟩
  · intro n h
    unfold popAt
    rw [List.drop_eq_getElem_cons h]
    have hp : (iterFiles dirPath postfixStr listing).get ⟨n, h⟩ ≠ "" :=
      iterFiles_ne_empty dirPath postfixStr listing hne _ (List.get_mem _ _ _)
    rw [List.get_eq_getElem] at hp
    simp [popSource, hp]
  · intro n hle
    unfold popAt
    rw [List.drop_eq_nil_of_le hle]
    rfl
  · intro n it hsome
    unfold popAt at hsome
    cases hd : (iterFiles dirPath postfixStr listing).drop n with
    | nil => rw [hd] at hsome; cases hsome
    | cons p rest =>
      rw [hd] at hsome
      simp only [popSource] at hsome
      split at hsome
      · cases hsome
      · cases hsome
        have hpmem : p ∈ iterFiles dirPath postfixStr listing :=
          List.mem_of_mem_drop (hd ▸ List.mem_cons_self p rest)
        obtain ⟨f, hfmem, rfl⟩ := List.mem_map.mp hpmem
        have hfilter := (List.mem_filter.mp hfmem).2
        rw [Bool.and_eq_true, Bool.not_eq_true'] at hfilter
        exact ⟨f, (List.mem_filter.mp hfmem).1, hfilter.1, hfilter.2, rfl⟩

theorem claim_C10_witness :
    (∀ n (h : n <
        (iterFiles "docs" ".txt"
          ["a.txt", ".hidden.txt", "b.log", "c.txt"]).length),
      popAt "docs" ".txt" ["a.txt", ".hidden.txt", "b.log", "c.txt"] n =
        some ⟨(iterFiles "docs" ".txt"
          ["a.txt", ".hidden.txt", "b.log", "c.txt"]).get ⟨n, h⟩⟩) ∧
    (∀ n, (iterFiles "docs" ".txt"
        ["a.txt", ".hidden.txt", "b.log", "c.txt"]).length ≤ n →
      popAt "docs" ".txt" ["a.txt", ".hidden.txt", "b.log", "c.txt"] n =
        none) ∧
    (∀ n it,
      popAt "docs" ".txt" ["a.txt", ".hidden.txt", "b.log", "c.txt"] n =
        some it →
      ∃ f, f ∈ ["a.txt", ".hidden.txt", "b.log", "c.txt"] ∧
        f.endsWith ".txt" = true ∧ f.startsWith "." = false ∧
        it.path = pathJoin "docs" f) :=
  claim_C10_pop "docs" ".txt" ["a.txt", ".hidden.txt", "b.log", "c.txt"]
    (by decide)

end Helpers
